import Mathlib

/-!
Shallow embedding of the typestate state-machine demo (`src/main.rs`).

The Rust program defines, inside a privacy-boundary module `state`:

* three state capsules `First(u32)`, `Second(i32)`, `Third(f64)`;
* the tagged union `StateMachine` with one public constructor `new`;
* transitions `First::add`, `First::into_second`, `Second::add`,
  `Second::into_third` (fallible, returning the original capsule on
  overflow), `Third::add`, `Third::into_b`;
* a driver loop in `main` that inspects the current variant, flips a
  random coin, and replaces the handle with the result of the chosen
  transition.

Modelling conventions:

* `u32` is `ℕ` (values kept below `2^32`); the unchecked Rust `+` on
  `u32` is modelled as wrapping addition modulo `2^32` (release-build
  semantics).
* `i32` is `ℤ`; the unchecked Rust `+` and the `as i32` cast are
  modelled with `wrap32`, two's-complement reduction modulo `2^32`.
  `checked_mul` mirrors `i32::checked_mul`: `some` exactly when the
  mathematical product fits in `i32`.
* `f64` is the inductive `F64`: finite values carried exactly as
  rationals plus the special values NaN and the two infinities.
  `F64.add` is exact rational addition on finite values; the rounding
  step of IEEE-754 binary64 addition is NOT modelled (every finite
  value this program's driver actually produces is a small integer, on
  which `f64` addition is exact).
* The `f64 as i32` cast is `F64.toI32Sat`, Rust's saturating
  float-to-int cast: truncate toward zero, clamp to the `i32` range,
  NaN to 0.
* Integer division `/` on `i32` panics in Rust when the divisor is 0
  or on `i32::MIN / -1`; `Third.into_b` therefore returns
  `Option Second`, with `none` modelling the panic. The division
  itself is `Int.tdiv`, Rust's truncate-toward-zero division.
-/

namespace state

/-- The constant `i32::MIN`. -/
def I32_MIN : ℤ := -2147483648

/-- The constant `i32::MAX`. -/
def I32_MAX : ℤ := 2147483647

/-- Two's-complement reduction of an integer into the `i32` range,
modelling Rust's wrapping arithmetic on `i32` and the `u32 as i32`
cast. -/
def wrap32 (z : ℤ) : ℤ := (z + 2147483648) % 4294967296 - 2147483648

/-- Model of `i32::checked_mul`: `some` of the product exactly when the
mathematical product fits in the `i32` range, otherwise `none`. -/
def checked_mul (x y : ℤ) : Option ℤ :=
  if I32_MIN ≤ x * y ∧ x * y ≤ I32_MAX then some (x * y) else none

/-- Shallow model of Rust `f64`: finite values carried exactly as
rationals, plus NaN and the two infinities. Rounding of binary64
arithmetic is not modelled (see the file docstring). -/
inductive F64 where
  | finite : ℚ → F64
  | nan : F64
  | inf : F64
  | negInf : F64
deriving DecidableEq

/-- Addition on the `f64` model: exact rational addition on finite
values, with the IEEE special-value propagation rules. -/
def F64.add : F64 → F64 → F64
  | F64.finite p, F64.finite q => F64.finite (p + q)
  | F64.nan, _ => F64.nan
  | _, F64.nan => F64.nan
  | F64.inf, F64.negInf => F64.nan
  | F64.negInf, F64.inf => F64.nan
  | F64.inf, _ => F64.inf
  | _, F64.inf => F64.inf
  | F64.negInf, _ => F64.negInf
  | _, F64.negInf => F64.negInf

/-- Truncation of a rational toward zero, as Rust's float-to-int casts
truncate. -/
def ratTrunc (q : ℚ) : ℤ := if 0 ≤ q then ⌊q⌋ else ⌈q⌉

/-- Rust's saturating `f64 as i32` cast: truncate toward zero, clamp to
the `i32` range, NaN to 0, `inf` to `i32::MAX`, `-inf` to `i32::MIN`. -/
def F64.toI32Sat : F64 → ℤ
  | F64.nan => 0
  | F64.inf => I32_MAX
  | F64.negInf => I32_MIN
  | F64.finite q => max I32_MIN (min I32_MAX (ratTrunc q))

/-- `pub struct First(u32);` -/
structure First where
  val : ℕ
deriving DecidableEq

/-- `pub struct Second(i32);` -/
structure Second where
  val : ℤ
deriving DecidableEq

/-- `pub struct Third(f64);` -/
structure Third where
  val : F64
deriving DecidableEq

/-- `First::into_second`: `Second(self.0 as i32 + addend)`. The cast
reinterprets the `u32` payload in two's complement, and the `+` is
unchecked `i32` addition. -/
def First.into_second (a : First) (addend : ℤ) : Second :=
  ⟨wrap32 (wrap32 (a.val : ℤ) + addend)⟩

/-- `First::add`: `First(self.0 + addend)` on `u32`. -/
def First.add (a : First) (addend : ℕ) : First :=
  ⟨(a.val + addend) % 4294967296⟩

/-- `Second::into_third`: `self.0.checked_mul(factor)`, on overflow the
error carries the original capsule and the diagnostic string; on
success the product is converted to `f64` (exact, since every `i32`
is exactly representable in `f64`) and wrapped in `Third`. -/
def Second.into_third (b : Second) (factor : ℤ) : Except (Second × String) Third :=
  match checked_mul b.val factor with
  | some p => Except.ok ⟨F64.finite (p : ℚ)⟩
  | none => Except.error (b, "Overflow! 😱")

/-- `Second::add`: `Second(self.0 + addend)` on `i32`. -/
def Second.add (b : Second) (addend : ℤ) : Second :=
  ⟨wrap32 (b.val + addend)⟩

/-- `Third::add`: `Third(self.0 + addend)` on `f64`. -/
def Third.add (c : Third) (addend : F64) : Third :=
  ⟨c.val.add addend⟩

/-- `Third::into_b`: `Second(self.0 as i32 / divisor)`. The cast is the
saturating `f64 as i32` cast; the division is unguarded `i32`
division, which panics (modelled as `none`) when `divisor` is 0, or
when the cast value is `i32::MIN` and `divisor` is `-1`. -/
def Third.into_b (c : Third) (divisor : ℤ) : Option Second :=
  if divisor = 0 then none
  else if c.val.toI32Sat = I32_MIN ∧ divisor = -1 then none
  else some ⟨(c.val.toI32Sat).tdiv divisor⟩

/-- `pub enum StateMachine { First(First), Second(Second), Third(Third) }` -/
inductive StateMachine where
  | First : First → StateMachine
  | Second : Second → StateMachine
  | Third : Third → StateMachine
deriving DecidableEq

/-- `StateMachine::new`: the single public constructor, always producing
the `First` variant. -/
def StateMachine.new (initial : ℕ) : StateMachine :=
  StateMachine.First ⟨initial⟩

/-- One iteration of the driver loop in `main`, as a function of the
current handle, the sampled coin `rand::random::<bool>()`, and the
sampled increment used by the `First` self-loop. Returns the new
handle together with the halt flag (`true` exactly when the loop
`break`s), or `none` when the iteration would panic. The branch
structure is literal: in the `First` arm the coin `true` self-loops
and `false` advances with parameter 12; in the `Second` arm `true`
attempts `into_third(4)` (staying in `Second` with the original
capsule on overflow) and `false` self-loops with 2; in the `Third`
arm `true` self-loops with 3.0 and halts, `false` retreats via
`into_b(3)`. -/
def driverStep (sm : StateMachine) (coin : Bool) (inc : ℕ) :
    Option (StateMachine × Bool) :=
  match sm with
  | StateMachine.First a =>
      if coin then some (StateMachine.First (a.add inc), false)
      else some (StateMachine.Second (a.into_second 12), false)
  | StateMachine.Second b =>
      if coin then
        match b.into_third 4 with
        | Except.ok third => some (StateMachine.Third third, false)
        | Except.error (original, _) => some (StateMachine.Second original, false)
      else some (StateMachine.Second (b.add 2), false)
  | StateMachine.Third c =>
      if coin then some (StateMachine.Third (c.add (F64.finite 3)), true)
      else (c.into_b 3).map (fun s => (StateMachine.Second s, false))

/-- The coin value that selects, in each variant's arm of the driver
loop, the branch that advances the machine (respectively, in the
`Third` arm, the self-loop-then-terminate branch): `false` in the
`First` arm (whose branches are inverted relative to the other arms),
`true` elsewhere. -/
def oracleAdvance : StateMachine → Bool
  | StateMachine.First _ => false
  | StateMachine.Second _ => true
  | StateMachine.Third _ => true

/-- The driver run from `StateMachine::new(1)` under the oracle that
always chooses to advance, with increment 0 supplied to the (never
taken) `First` self-loop. The `Bool` is the halt flag; once `true`
the state is frozen. -/
def runAdvance : ℕ → Option (StateMachine × Bool)
  | 0 => some (StateMachine.new 1, false)
  | n + 1 =>
    match runAdvance n with
    | some (sm, false) => driverStep sm (oracleAdvance sm) 0
    | some (sm, true) => some (sm, true)
    | none => none

/-! Helper lemmas shared by the theorems below. -/

/-- Truncation toward zero of an integer-valued rational is that
integer. -/
lemma ratTrunc_intCast (z : ℤ) : ratTrunc ((z : ℚ)) = z := by
  unfold ratTrunc
  split <;> simp

/-- The saturating cast is the identity on integer-valued rationals in
the `i32` range. -/
lemma toI32Sat_intCast (z : ℤ) (h1 : I32_MIN ≤ z) (h2 : z ≤ I32_MAX) :
    F64.toI32Sat (F64.finite (z : ℚ)) = z := by
  simp [F64.toI32Sat, ratTrunc_intCast, I32_MIN, I32_MAX] at h1 h2 ⊢
  omega

/-- Composing two `First` self-loops adds the sum of the deltas
(unconditionally, under the wrapping model of `u32` addition). -/
lemma first_selfloop_compose (x : First) (a b : ℕ) :
    (x.add a).add b = x.add (a + b) := by
  simp [First.add]
  omega

/-- Composing two `Second` self-loops adds the sum of the deltas
(unconditionally, under the wrapping model of `i32` addition). -/
lemma second_selfloop_compose (x : Second) (a b : ℤ) :
    (x.add a).add b = x.add (a + b) := by
  simp [Second.add, wrap32]
  omega

/-! Theorems for the specification claims. -/

/-- C1: for every `Second` capsule `m` and factor `p` whose product
overflows `i32`, `Second::into_third` returns `Err` carrying the
original capsule (same payload, unconsumed) together with the
diagnostic overflow reason. -/
theorem into_third_overflow_returns_original (m : Second) (p : ℤ)
    (hov : ¬ (I32_MIN ≤ m.val * p ∧ m.val * p ≤ I32_MAX)) :
    m.into_third p = Except.error (m, "Overflow! 😱") := by
  unfold Second.into_third checked_mul
  rw [if_neg hov]

/-- C1 witness: `Second(3).into_third(i32::MAX)` overflows and returns
`Err` with the untouched `Second(3)`. -/
theorem into_third_overflow_at_i32_max :
    (Second.mk 3).into_third 2147483647 =
      Except.error (Second.mk 3, "Overflow! 😱") :=
  into_third_overflow_returns_original ⟨3⟩ 2147483647 (by decide)

/-- C2 counterexample: in the `First` arm of the driver loop, the coin
outcome `false` does NOT self-loop; it advances to the `Second`
variant (the branches of the `First` arm are inverted relative to
the claim): from `First(1)` with coin `false` and sampled increment
5, the new handle is `Second(13)`, not `First(1 + 5)`. -/
theorem first_arm_false_advances :
    driverStep (StateMachine.First ⟨1⟩) false 5 =
        some (StateMachine.Second ⟨13⟩, false) ∧
    driverStep (StateMachine.First ⟨1⟩) false 5 ≠
        some (StateMachine.First ((⟨1⟩ : First).add 5), false) := by
  constructor
  · decide
  · decide

/-- C2 as amended: in every driver-loop iteration whose current variant
is `First`, coin outcome `true` self-loops (a new `First` capsule
with the freshly sampled increment added) and coin outcome `false`
advances to `Second` with the fixed parameter 12. -/
theorem first_arm_branches (a : First) (inc : ℕ) :
    driverStep (StateMachine.First a) true inc =
        some (StateMachine.First (a.add inc), false) ∧
    driverStep (StateMachine.First a) false inc =
        some (StateMachine.Second (a.into_second 12), false) :=
  ⟨rfl, rfl⟩

/-- C4: for every `Second` capsule `m` (payload in the `i32` range) and
nonzero factor `f` whose product does not overflow, advancing with
`into_third(f)` and then retreating with `into_b(f)` recovers a
`Second` capsule with exactly the payload of `m` (the division is
exact, with no remainder, since the dividend is the product). -/
theorem advance_then_retreat_roundtrip (m : Second) (f : ℤ)
    (hm : I32_MIN ≤ m.val ∧ m.val ≤ I32_MAX) (hf : f ≠ 0)
    (hprod : I32_MIN ≤ m.val * f ∧ m.val * f ≤ I32_MAX) :
    m.into_third f = Except.ok ⟨F64.finite ((m.val * f : ℤ) : ℚ)⟩ ∧
    Third.into_b ⟨F64.finite ((m.val * f : ℤ) : ℚ)⟩ f = some ⟨m.val⟩ := by
  constructor
  · unfold Second.into_third checked_mul
    rw [if_pos hprod]
  · have hts : F64.toI32Sat (F64.finite ((m.val * f : ℤ) : ℚ)) = m.val * f :=
      toI32Sat_intCast _ hprod.1 hprod.2
    unfold Third.into_b
    simp only [hts]
    rw [if_neg hf, if_neg ?hmin]
    case hmin =>
      rintro ⟨he, hf1⟩
      rw [hf1] at he hprod
      simp [I32_MIN, I32_MAX] at hm he hprod
      omega
    rw [Int.mul_tdiv_cancel _ hf]

/-- C4 witness: `Second(18)` advanced with factor 4 yields
`Third(72.0)`, and retreating with divisor 4 recovers `Second(18)`. -/
theorem advance_then_retreat_roundtrip_at_18_4 :
    (Second.mk 18).into_third 4 = Except.ok ⟨F64.finite ((18 * 4 : ℤ) : ℚ)⟩ ∧
    Third.into_b ⟨F64.finite ((18 * 4 : ℤ) : ℚ)⟩ 4 = some ⟨18⟩ :=
  advance_then_retreat_roundtrip ⟨18⟩ 4 (by decide) (by decide) (by decide)

/-- C5: the concrete trace: `new(1)` yields the `First` variant with
payload 1; the `First` self-loop with increment 5 yields `First(6)`;
`into_second(12)` yields `Second(18)`; and `Second(18).into_third(4)`
succeeds with `Third(72.0)`. -/
theorem concrete_trace_new_one :
    StateMachine.new 1 = StateMachine.First ⟨1⟩ ∧
    (First.mk 1).add 5 = ⟨6⟩ ∧
    (First.mk 6).into_second 12 = ⟨18⟩ ∧
    (Second.mk 18).into_third 4 = Except.ok ⟨F64.finite 72⟩ := by
  refine ⟨rfl, by decide, by decide, ?_⟩
  norm_num [Second.into_third, checked_mul, I32_MIN, I32_MAX]

/-- C6: `Third::into_b` computes the `Second` payload by truncating the
floating payload toward zero (the first stage of the `as i32` cast)
and dividing by the divisor, whenever the truncation lies in the
`i32` range and the division does not panic. -/
theorem into_b_truncates_then_divides (q : ℚ) (d : ℤ)
    (h1 : I32_MIN ≤ ratTrunc q) (h2 : ratTrunc q ≤ I32_MAX)
    (hd : d ≠ 0) (hmin : ¬ (ratTrunc q = I32_MIN ∧ d = -1)) :
    Third.into_b ⟨F64.finite q⟩ d = some ⟨(ratTrunc q).tdiv d⟩ := by
  have hts : F64.toI32Sat (F64.finite q) = ratTrunc q := by
    simp [F64.toI32Sat, I32_MIN, I32_MAX] at h1 h2 ⊢
    omega
  unfold Third.into_b
  simp only [hts]
  rw [if_neg hd, if_neg hmin]

/-- C6 witness: `Third(72.0).into_b(3)` yields `Second(24)`. -/
theorem into_b_of_72_by_3 :
    Third.into_b ⟨F64.finite 72⟩ 3 = some ⟨24⟩ := by
  have hq : ratTrunc 72 = 72 := by decide
  have h := into_b_truncates_then_divides 72 3 (by decide) (by decide)
      (by decide) (by decide)
  rw [hq, show Int.tdiv 72 3 = 24 by decide] at h
  exact h

/-- C7: under the oracle that always chooses the advancing branch, the
driver started from `new(1)` is in the `Second` variant after one
step, reaches the `Third` (Final) variant after exactly two steps,
and halts on the very next step, which is the `Third` self-loop
(payload 52.0 + 3.0 = 55.0, halt flag set). -/
theorem always_advance_reaches_third_in_two_steps :
    runAdvance 1 = some (StateMachine.Second ⟨13⟩, false) ∧
    runAdvance 2 = some (StateMachine.Third ⟨F64.finite 52⟩, false) ∧
    runAdvance 3 = some (StateMachine.Third ⟨F64.finite 55⟩, true) := by
  have h2 : runAdvance 2 = some (StateMachine.Third ⟨F64.finite 52⟩, false) := by
    decide
  refine ⟨by decide, h2, ?_⟩
  rw [runAdvance, h2]
  simp [driverStep, oracleAdvance, Third.add, F64.add]
  norm_num

/-- C8: `Third::into_b` does not guard division by zero: for every
`Third` capsule, divisor 0 reaches the division's zero-divisor error
branch (modelled as `none`, the Rust panic); there is no check and no
error return in the code. -/
theorem into_b_zero_divisor_reachable (c : Third) : c.into_b 0 = none := by
  simp [Third.into_b]

/-- C9: for every `First` capsule whose `u32` payload exceeds
`i32::MAX`, the `as i32` cast in `First::into_second` reinterprets
the payload modulo `2^32` in two's complement — producing the
negative value `payload - 2^32` (neither checked nor saturating) —
and only then adds the parameter. -/
theorem into_second_reinterprets_twos_complement (v : ℕ) (a : ℤ)
    (hv : v < 4294967296) (hbig : 2147483648 ≤ v) :
    wrap32 (v : ℤ) = (v : ℤ) - 4294967296 ∧
    wrap32 (v : ℤ) < 0 ∧
    (First.mk v).into_second a = ⟨wrap32 (((v : ℤ) - 4294967296) + a)⟩ := by
  have h : wrap32 (v : ℤ) = (v : ℤ) - 4294967296 := by
    unfold wrap32
    omega
  refine ⟨h, by omega, ?_⟩
  unfold First.into_second
  rw [h]

/-- C9 witness: `First(2^31).into_second(5)` wraps the payload to
`-2^31` before adding. -/
theorem into_second_wraps_at_2_pow_31 :
    wrap32 ((2147483648 : ℕ) : ℤ) = ((2147483648 : ℕ) : ℤ) - 4294967296 ∧
    wrap32 ((2147483648 : ℕ) : ℤ) < 0 ∧
    (First.mk 2147483648).into_second 5 =
      ⟨wrap32 ((((2147483648 : ℕ) : ℤ) - 4294967296) + 5)⟩ :=
  into_second_reinterprets_twos_complement 2147483648 5 (by decide) (by decide)

/-- C10: the `f64 as i32` cast used by `Third::into_b` saturates:
finite payloads at or above `i32::MAX` clamp to `i32::MAX`, finite
payloads at or below `i32::MIN` clamp to `i32::MIN`, NaN maps to 0,
the infinities clamp to the respective bounds — and `into_b` divides
only after this cast. -/
theorem toI32Sat_saturating_semantics :
    (∀ q : ℚ, (2147483647 : ℚ) ≤ q → F64.toI32Sat (F64.finite q) = I32_MAX) ∧
    (∀ q : ℚ, q ≤ (-2147483648 : ℚ) → F64.toI32Sat (F64.finite q) = I32_MIN) ∧
    F64.toI32Sat F64.nan = 0 ∧
    F64.toI32Sat F64.inf = I32_MAX ∧
    F64.toI32Sat F64.negInf = I32_MIN ∧
    (∀ (c : Third) (d : ℤ), d ≠ 0 → ¬ (F64.toI32Sat c.val = I32_MIN ∧ d = -1) →
      c.into_b d = some ⟨(F64.toI32Sat c.val).tdiv d⟩) := by
  refine ⟨?_, ?_, rfl, rfl, rfl, ?_⟩
  · intro q hq
    have hfloor : (2147483647 : ℤ) ≤ ⌊q⌋ := Int.le_floor.mpr (by exact_mod_cast hq)
    have h0 : (0 : ℚ) ≤ q := le_trans (by norm_num) hq
    simp [F64.toI32Sat, ratTrunc, h0, I32_MIN, I32_MAX]
    omega
  · intro q hq
    have hceil : ⌈q⌉ ≤ (-2147483648 : ℤ) := Int.ceil_le.mpr (by exact_mod_cast hq)
    have h0 : ¬ (0 : ℚ) ≤ q := by
      intro h
      have := le_trans h hq
      norm_num at this
    simp [F64.toI32Sat, ratTrunc, h0, I32_MIN, I32_MAX]
    omega
  · intro c d hd hmin
    unfold Third.into_b
    rw [if_neg hd, if_neg hmin]

/-- C10 witness: `4294967296.0 as i32` saturates to `i32::MAX`,
`-4294967296.0 as i32` saturates to `i32::MIN`, and
`Third(NaN).into_b(5)` casts NaN to 0 before dividing. -/
theorem toI32Sat_saturating_witness :
    F64.toI32Sat (F64.finite 4294967296) = I32_MAX ∧
    F64.toI32Sat (F64.finite (-4294967296)) = I32_MIN ∧
    Third.into_b ⟨F64.nan⟩ 5 = some ⟨Int.tdiv (F64.toI32Sat F64.nan) 5⟩ :=
  ⟨toI32Sat_saturating_semantics.1 4294967296 (by norm_num),
   toI32Sat_saturating_semantics.2.1 (-4294967296) (by norm_num),
   toI32Sat_saturating_semantics.2.2.2.2.2 ⟨F64.nan⟩ 5 (by decide) (by decide)⟩

end state
